import Mathlib

/-!
Shallow embedding of the instept-backend recipe pipeline
(`main.py`, `services/gemini.py`, `services/firebase_service.py`,
`services/downloader.py`) and proofs about the claims of its
specification.

Machine integers from the Python side are modelled as `Nat` with explicit
`% 2^32` (MD5 word arithmetic).  External collaborators (the Gemini
inference backend, Firestore, Firebase Storage, yt-dlp) are modelled as
explicit oracle inputs; stateful code is explicit state passing over a
store value plus an event trace.
-/

namespace Instept

/-! ## MD5 (hashlib.md5, as called by `generate_recipe_id`)

The source calls `hashlib.md5(unique_key.encode()).hexdigest()`.  We embed
the full MD5 algorithm (RFC 1321) over byte lists (`List Nat`, each byte
`< 256`), with 32-bit words as `Nat` reduced `% 2^32`. -/

def w32 (n : Nat) : Nat := n % 4294967296

def add32 (a b : Nat) : Nat := (a + b) % 4294967296

def not32 (a : Nat) : Nat := Nat.xor a 4294967295

def rotl32 (x s : Nat) : Nat :=
  Nat.lor ((x * 2 ^ s) % 4294967296) (x / 2 ^ (32 - s))

/-- Per-round shift amounts table of MD5. -/
def mdS : List Nat :=
  [7, 12, 17, 22, 7, 12, 17, 22, 7, 12, 17, 22, 7, 12, 17, 22,
   5, 9, 14, 20, 5, 9, 14, 20, 5, 9, 14, 20, 5, 9, 14, 20,
   4, 11, 16, 23, 4, 11, 16, 23, 4, 11, 16, 23, 4, 11, 16, 23,
   6, 10, 15, 21, 6, 10, 15, 21, 6, 10, 15, 21, 6, 10, 15, 21]

/-- Round constants of MD5: `floor(abs(sin(i+1)) * 2^32)`. -/
def mdK : List Nat :=
  [3614090360, 3905402710, 606105819, 3250441966,
   4118548399, 1200080426, 2821735955, 4249261313,
   1770035416, 2336552879, 4294925233, 2304563134,
   1804603682, 4254626195, 2792965006, 1236535329,
   4129170786, 3225465664, 643717713, 3921069994,
   3593408605, 38016083, 3634488961, 3889429448,
   568446438, 3275163606, 4107603335, 1163531501,
   2850285829, 4243563512, 1735328473, 2368359562,
   4294588738, 2272392833, 1839030562, 4259657740,
   2763975236, 1272893353, 4139469664, 3200236656,
   681279174, 3936430074, 3572445317, 76029189,
   3654602809, 3873151461, 530742520, 3299628645,
   4096336452, 1126891415, 2878612391, 4237533241,
   1700485571, 2399980690, 4293915773, 2240044497,
   1873313359, 4264355552, 2734768916, 1309151649,
   4149444226, 3174756917, 718787259, 3951481745]

def mdF (i b c d : Nat) : Nat :=
  if i < 16 then Nat.lor (Nat.land b c) (Nat.land (not32 b) d)
  else if i < 32 then Nat.lor (Nat.land d b) (Nat.land (not32 d) c)
  else if i < 48 then Nat.xor (Nat.xor b c) d
  else Nat.xor c (Nat.lor b (not32 d))

def mdG (i : Nat) : Nat :=
  if i < 16 then i
  else if i < 32 then (5 * i + 1) % 16
  else if i < 48 then (3 * i + 5) % 16
  else (7 * i) % 16

/-- Little-endian word `j` of a 64-byte block. -/
def leWord (block : List Nat) (j : Nat) : Nat :=
  block.getD (4 * j) 0 + 256 * block.getD (4 * j + 1) 0 +
    65536 * block.getD (4 * j + 2) 0 + 16777216 * block.getD (4 * j + 3) 0

def md5Round (block : List Nat) (st : Nat × Nat × Nat × Nat) (i : Nat) :
    Nat × Nat × Nat × Nat :=
  match st with
  | (a, b, c, d) =>
    let tmp := add32 (add32 (add32 a (mdF i b c d)) (mdK.getD i 0)) (leWord block (mdG i))
    (d, add32 b (rotl32 tmp (mdS.getD i 0)), b, c)

def md5Block (st : Nat × Nat × Nat × Nat) (block : List Nat) :
    Nat × Nat × Nat × Nat :=
  match (List.range 64).foldl (md5Round block) st, st with
  | (a, b, c, d), (a0, b0, c0, d0) => (add32 a0 a, add32 b0 b, add32 c0 c, add32 d0 d)

/-- Little-endian byte encoding of `n` in exactly `width` bytes. -/
def leBytes : Nat → Nat → List Nat
  | 0, _ => []
  | w + 1, n => n % 256 :: leBytes w (n / 256)

/-- MD5 padding: a `0x80` byte, zeros to 56 mod 64, then the 64-bit
little-endian bit length. -/
def md5Pad (msg : List Nat) : List Nat :=
  msg ++ 128 :: List.replicate ((119 - msg.length % 64) % 64) 0 ++
    leBytes 8 (msg.length * 8)

def chunksGo : Nat → List Nat → List (List Nat)
  | 0, _ => []
  | _, [] => []
  | fuel + 1, a :: rest => (a :: rest).take 64 :: chunksGo fuel ((a :: rest).drop 64)

def chunks64 (l : List Nat) : List (List Nat) := chunksGo l.length l

/-- The 16-byte MD5 digest of a byte string. -/
def md5Bytes (msg : List Nat) : List Nat :=
  match (chunks64 (md5Pad msg)).foldl md5Block
      (1732584193, 4023233417, 2562383102, 271733878) with
  | (a, b, c, d) => leBytes 4 a ++ leBytes 4 b ++ leBytes 4 c ++ leBytes 4 d

def hexChars : List Char := "0123456789abcdef".data

def hexDigitChar (n : Nat) : Char := hexChars.getD (n % 16) '0'

/-- Two lowercase hex characters of one byte, as in `hexdigest`. -/
def byteToHex (b : Nat) : List Char := [hexDigitChar (b / 16), hexDigitChar b]

def md5HexChars (msg : List Nat) : List Char :=
  ((md5Bytes msg).map byteToHex).flatten

/-- UTF-8 encoding of one character (`str.encode()` in the source). -/
def utf8Encode (c : Char) : List Nat :=
  let n := c.toNat
  if n < 128 then [n]
  else if n < 2048 then [192 + n / 64, 128 + n % 64]
  else if n < 65536 then [224 + n / 4096, 128 + n / 64 % 64, 128 + n % 64]
  else [240 + n / 262144, 128 + n / 4096 % 64, 128 + n / 64 % 64, 128 + n % 64]

def encodeUtf8 (s : List Char) : List Nat := (s.map utf8Encode).flatten

/-! ## Cache-key derivation (`firebase_service.generate_recipe_id`)

```python
match = re.search(r'instagram\.com/(?:reel|p)/([^/?#]+)', source_url)
if match:
    unique_key = match.group(1)
else:
    unique_key = source_url.split('?')[0].split('#')[0]
return hashlib.md5(unique_key.encode()).hexdigest()
```
The regex scan is modelled as a leftmost-position scan trying the literal
`instagram.com/reel/` then `instagram.com/p/`, followed by a maximal
nonempty run of characters outside `/?#`. -/

def isStopChar (c : Char) : Bool := c == '/' || c == '?' || c == '#'

/-- If `lit` is a prefix of `s`, return the remainder of `s`. -/
def dropLit : List Char → List Char → Option (List Char)
  | [], s => some s
  | _ :: _, [] => none
  | l :: ls, c :: cs => if c = l then dropLit ls cs else none

def litReel : List Char := "instagram.com/reel/".data

def litP : List Char := "instagram.com/p/".data

def takeGroup (s : List Char) : List Char := s.takeWhile (fun c => !isStopChar c)

def tryCodeP (s : List Char) : Option (List Char) :=
  match dropLit litP s with
  | some rest =>
    let g := takeGroup rest
    if g = [] then none else some g
  | none => none

def tryCodeAt (s : List Char) : Option (List Char) :=
  match dropLit litReel s with
  | some rest =>
    let g := takeGroup rest
    if g = [] then tryCodeP s else some g
  | none => tryCodeP s

/-- Leftmost regex match of `instagram\.com/(?:reel|p)/([^/?#]+)`,
returning the captured group. -/
def scanCode : List Char → Option (List Char)
  | [] => none
  | c :: cs =>
    match tryCodeAt (c :: cs) with
    | some g => some g
    | none => scanCode cs

/-- `source_url.split('?')[0].split('#')[0]`. -/
def stripQF (s : List Char) : List Char :=
  (s.takeWhile (fun c => c != '?')).takeWhile (fun c => c != '#')

def uniqueKey (s : List Char) : List Char :=
  match scanCode s with
  | some g => g
  | none => stripQF s

def generate_recipe_id (source_url : String) : String :=
  ⟨md5HexChars (encodeUtf8 (uniqueKey source_url.data))⟩

/-! ## Data model (`models.py`)

Pydantic models with their declared defaults.  `rating: float` carries no
arithmetic anywhere in the embedded claims, so it is modelled as `Rat`. -/

structure Ingredient where
  name : String
  amount : String
  unit : String
deriving DecidableEq, Repr

structure Step where
  description : String
  image_url : Option String := none
deriving DecidableEq, Repr

structure Recipe where
  id : Option String := none
  source_url : Option String := none
  title : String
  description : String
  category : String := "Dinner"
  rating : Rat := 4.8
  reviews_count : Int := 124
  time : String := "30 min"
  difficulty : String := "Medium"
  calories : String := "450"
  author_name : String := "Chef Mario"
  author_avatar : String := ""
  hero_image_url : Option String := none
  created_at : Option String := none
  likes_count : Int := 0
  ingredients : List Ingredient
  steps : List Step
  language : String := "en"
deriving DecidableEq, Repr

/-- Python truthiness of an optional string (`if x:` is false for `None`
and for the empty string). -/
def optTruthy : Option String → Bool
  | some s => s != ""
  | none => false

/-! ## Translator (`gemini.translate_recipe`)

The remote call and JSON parse are modelled by an oracle describing the
parsed response.  `JsonElem.obj parsed` is a JSON object; `parsed` is the
outcome of `Recipe(**element)` (`none` = pydantic validation error, which
the surrounding `except` turns into the fallback). -/

inductive JsonElem where
  | obj (parsed : Option Recipe)
  | nonObj
deriving DecidableEq, Repr

inductive TransResp where
  | raise
  | jlist (elems : List JsonElem)
  | jobj (parsed : Option Recipe)
  | jother
deriving DecidableEq, Repr

/-- Lines 144-152 of `gemini.py`: force `id`, `source_url`,
`hero_image_url` from the original and re-stitch each step's `image_url`
positionally with `zip` (which truncates to the shorter list). -/
def restitch (original tr : Recipe) : Recipe :=
  { tr with
    id := original.id
    source_url := original.source_url
    hero_image_url := original.hero_image_url
    steps := List.zipWith
      (fun s orig => { description := s.description, image_url := orig.image_url })
      tr.steps original.steps }

/-- `translate_recipe(recipe, target_language)` against a backend
response.  Every failure path is caught and falls back to the original
recipe, so the embedding is total. -/
def translate_recipe (recipe : Recipe) (_target_language : String)
    (resp : TransResp) : Recipe :=
  match resp with
  | .raise => recipe
  | .jother => recipe
  | .jobj parsed =>
    match parsed with
    | some tr => restitch recipe tr
    | none => recipe
  | .jlist elems =>
    match elems with
    | .obj (some tr) :: _ => restitch recipe tr
    | .obj none :: _ => recipe
    | _ => recipe

/-! ## Recipe store (`firebase_service.py`)

Firestore is modelled as an association list of documents keyed by the
derived recipe id, plus a `ready` flag for `firebase_admin._apps`.
`doc_ref.set({'translations': {language: data}}, merge=True)` merges the
one language entry and leaves every other field of the document alone. -/

structure DocMetadata where
  author_name : String
  time : String
  category : String
deriving DecidableEq, Repr

structure StoredDoc where
  source_url : String
  created_at : Nat
  hero_image_url : Option String := none
  metadata : DocMetadata
  rating : Option Rat := none
  reviews_count : Option Int := none
  translations : List (String × Recipe)
deriving DecidableEq, Repr

def lookupA {α : Type} : List (String × α) → String → Option α
  | [], _ => none
  | (k, v) :: rest, key => if k = key then some v else lookupA rest key

def setA {α : Type} : List (String × α) → String → α → List (String × α)
  | [], key, v => [(key, v)]
  | (k, w) :: rest, key, v =>
    if k = key then (k, v) :: rest else (k, w) :: setA rest key v

structure FStore where
  ready : Bool                  -- firebase_admin._apps nonempty
  now : Nat                     -- firestore.SERVER_TIMESTAMP for creates
  docs : List (String × StoredDoc)
deriving DecidableEq, Repr

def get_recipe_from_firestore (source_url : String) (db : FStore) :
    Option StoredDoc :=
  if db.ready then lookupA db.docs (generate_recipe_id source_url) else none

def save_recipe_to_firestore (recipe_data : Recipe) (source_url language : String)
    (db : FStore) : Option String × FStore :=
  if db.ready then
    let recipe_id := generate_recipe_id source_url
    match lookupA db.docs recipe_id with
    | some doc =>
      let doc2 : StoredDoc :=
        { doc with translations := setA doc.translations language recipe_data }
      (some recipe_id, { db with docs := setA db.docs recipe_id doc2 })
    | none =>
      let newDoc : StoredDoc :=
        { source_url := source_url
          created_at := db.now
          hero_image_url :=
            if optTruthy recipe_data.hero_image_url then recipe_data.hero_image_url
            else none
          metadata :=
            { author_name := recipe_data.author_name
              time := recipe_data.time
              category := recipe_data.category }
          rating := none
          reviews_count := none
          translations := [(language, recipe_data)] }
      (some recipe_id, { db with docs := setA db.docs recipe_id newDoc })
  else (none, db)

/-- `upload_image(file_path, destination)`: `None` when Firebase is not
initialized, otherwise the storage oracle decides success. -/
def upload_image (uploadO : String → Option String) (db : FStore)
    (_file_path destination : String) : Option String :=
  if db.ready then uploadO destination else none

/-! ## Inference backend oracles and event traces (`gemini.py`, `main.py`)

Image bytes are modelled by abstract `Nat` tags.  Every external call the
claims talk about leaves an event in the run's trace. -/

structure RPart where
  inline_data : Option Nat
deriving DecidableEq, Repr

/-- Outcome of one `client.models.generate_content` image call:
an exception whose text contains "503" or "429" (transient), any other
exception, or a response with its list of parts. -/
inductive GenResult where
  | raiseTransient
  | raiseOther
  | ok (parts : List RPart)
deriving DecidableEq, Repr

/-- The parsed structured-JSON extraction, before default backfilling.
`steps` holds the step descriptions (`data.get("steps", [])`); optional
fields are `none` when the model omitted them. -/
structure ExtractedData where
  title : String
  description : String
  category : Option String := none
  time : Option String := none
  difficulty : Option String := none
  calories : Option String := none
  rating : Option Rat := none
  reviews_count : Option Int := none
  author_name : Option String := none
  author_avatar : Option String := none
  ingredients : List Ingredient := []
  steps : List String := []
deriving DecidableEq, Repr

structure GenEnv where
  stepGen : Nat → Nat → GenResult   -- step index → attempt index → outcome
  heroGen : Nat → GenResult         -- attempt index → outcome (source only ever makes attempt 0)
  uploadO : String → Option String  -- storage oracle: destination path → public URL
  timeNow : Nat                     -- int(time.time())
  processingOk : Bool               -- state after the poll loop: true = ready, false = "FAILED"
  extract : Option ExtractedData    -- none = extraction call raised or JSON parse failed
  transResp : TransResp             -- translation backend response
  randRating : Rat                  -- round(random.uniform(4.0, 5.0), 1)
  randReviews : Int                 -- random.randint(50, 500)
  deleteFails : Bool                -- whether client.files.delete raises

structure DownloadMeta where
  author_name : String
  title : Option String := none
  description : Option String := none
deriving DecidableEq, Repr

inductive Ev where
  | downloadCall
  | videoUpload
  | stepGenCall (i attempt : Nat)
  | heroGenCall (ctx : List Nat)
  | videoDelete
  | translateCall (language : String)
  | saveCall (language : String)
  | notifySuccess
  | notifyFailure
deriving DecidableEq, Repr

/-- Result of the bounded-retry loop for one step's illustration.
`image_url` is the final value of `step['image_url']` (`none` covers both
the key being absent and explicitly set to `None` - pydantic maps both to
`None`); `produced` is the image appended to `previous_images`. -/
structure TryResult where
  image_url : Option String := none
  produced : Option Nat := none
  calls : List Ev := []
  sleeps : List Nat := []
deriving DecidableEq, Repr

def max_retries : Nat := 3

/-- First part carrying `inline_data` (the `for part in parts` scan). -/
def firstInline : List RPart → Option Nat
  | [] => none
  | p :: rest =>
    match p.inline_data with
    | some img => some img
    | none => firstInline rest

/-- The `for attempt in range(max_retries)` loop of lines 287-339 of
`gemini.py`, over the remaining attempt indices.  On a response with a
saveable part it uploads and breaks; on a transient exception with
attempts remaining it sleeps `(attempt+1)*2` and retries; on any other
exception (or a transient one on the last attempt) it sets
`step['image_url'] = None` and breaks; on a response with no saveable
part it falls through to the next attempt without sleeping. -/
def stepAttempts (gen : Nat → GenResult) (upload : Nat → Option String)
    (i : Nat) : List Nat → TryResult
  | [] => {}
  | attempt :: rest =>
    match gen attempt with
    | .ok parts =>
      match firstInline parts with
      | some img =>
        { image_url := upload img, produced := some img,
          calls := [.stepGenCall i attempt] }
      | none =>
        let r := stepAttempts gen upload i rest
        { r with calls := .stepGenCall i attempt :: r.calls }
    | .raiseTransient =>
      if attempt < max_retries - 1 then
        let r := stepAttempts gen upload i rest
        { r with calls := .stepGenCall i attempt :: r.calls,
                 sleeps := (attempt + 1) * 2 :: r.sleeps }
      else
        { calls := [.stepGenCall i attempt] }
    | .raiseOther => { calls := [.stepGenCall i attempt] }

structure StepsResult where
  stepsOut : List Step
  images : List Nat
  evs : List Ev
deriving DecidableEq, Repr

/-- The per-step illustration loop (lines 274-347), threading the
`previous_images` context and uploading accepted images under
`recipes/<rid>/step_<time>_<i>.png`. -/
def illustrateGo (stepGen : Nat → Nat → GenResult) (uploadO : String → Option String)
    (timeNow : Nat) (db : FStore) (rid : String) :
    Nat → List Nat → List String → StepsResult
  | _, imgs, [] => { stepsOut := [], images := imgs, evs := [] }
  | i, imgs, desc :: rest =>
    let temp := "step_" ++ toString timeNow ++ "_" ++ toString i ++ ".png"
    let r := stepAttempts (stepGen i)
      (fun _img => upload_image uploadO db temp ("recipes/" ++ rid ++ "/" ++ temp))
      i (List.range max_retries)
    let imgs2 := match r.produced with
      | some im => imgs ++ [im]
      | none => imgs
    let tail := illustrateGo stepGen uploadO timeNow db rid (i + 1) imgs2 rest
    { stepsOut := { description := desc, image_url := r.image_url } :: tail.stepsOut
      images := tail.images
      evs := r.calls ++ tail.evs }

/-- The `except` fallback of the hero block: reuse the first step's image
if `data.get("steps")` is nonempty and its first entry has a truthy
`image_url`. -/
def heroFallback (stepsOut : List Step) : Option String :=
  match stepsOut with
  | s0 :: _ => if optTruthy s0.image_url then s0.image_url else none
  | [] => none

structure HeroResult where
  hero : Option String
  evs : List Ev
deriving DecidableEq, Repr

/-- The dedicated hero-image block (lines 349-396): a single
`generate_content` call with all accumulated step images as context; on a
raised exception, fall back to the first step's image; on a response with
no saveable part, or an upload failure, the hero URL stays unset with no
fallback. -/
def heroPhase (heroGen : Nat → GenResult) (uploadO : String → Option String)
    (timeNow : Nat) (db : FStore) (rid : String) (imgs : List Nat)
    (stepsOut : List Step) : HeroResult :=
  match heroGen 0 with
  | .ok parts =>
    match firstInline parts with
    | some _img =>
      let temp := "hero_" ++ toString timeNow ++ ".png"
      { hero := upload_image uploadO db temp ("recipes/" ++ rid ++ "/" ++ temp),
        evs := [.heroGenCall imgs] }
    | none => { hero := none, evs := [.heroGenCall imgs] }
  | .raiseTransient => { hero := heroFallback stepsOut, evs := [.heroGenCall imgs] }
  | .raiseOther => { hero := heroFallback stepsOut, evs := [.heroGenCall imgs] }

/-- `Recipe(**data)` after the default backfilling of lines 263-271:
absent numeric/author fields get the randomized or fixed defaults, the
remaining absent fields get the pydantic defaults of `models.py`. -/
def buildRecipe (d : ExtractedData) (randRating : Rat) (randReviews : Int)
    (stepsOut : List Step) (hero : Option String) : Recipe :=
  { title := d.title
    description := d.description
    category := d.category.getD "Dinner"
    rating := d.rating.getD randRating
    reviews_count := d.reviews_count.getD randReviews
    time := d.time.getD "30 min"
    difficulty := d.difficulty.getD "Medium"
    calories := d.calories.getD "450"
    author_name := d.author_name.getD "Chef Mario"
    author_avatar := d.author_avatar.getD "https://i.pravatar.cc/150?u=chef"
    hero_image_url := hero
    ingredients := d.ingredients
    steps := stepsOut }

/-! ## `analyze_video` and `get_cached_recipe` -/

inductive AErr where
  | noVideoPath       -- ValueError("Video path is required for new analysis.")
  | uploadTypeError   -- client.files.upload(file=...) given a tuple instead of a path
  | processingFailed  -- ValueError("Video processing failed.")
  | generationFailed  -- ValueError("Gemini generation failed: ...")
deriving DecidableEq, Repr

/-- The dynamically-typed value main.py binds to `video_path`: the
downloader returns a `(path, metadata)` tuple, while `analyze_video` and
`os.path.exists` expect a plain path string. -/
inductive FileArg where
  | path (p : String)
  | pair (p : String) (meta : DownloadMeta)
deriving DecidableEq, Repr

/-- Shared mutation pattern of the cache branches: set `id` from the
derived key, pull the document-level `rating`/`reviews_count` when
present, and set `source_url`. -/
def withDocGlobals (r : Recipe) (doc : StoredDoc) (video_url : String) : Recipe :=
  { r with
    id := some (generate_recipe_id video_url)
    rating := doc.rating.getD r.rating
    reviews_count := doc.reviews_count.getD r.reviews_count
    source_url := some video_url }

/-- Restore the hero image from the document when the cached payload has
no truthy one (present in `get_cached_recipe` and in the exact-language
branch of `analyze_video`). -/
def withHeroBackfill (r : Recipe) (doc : StoredDoc) : Recipe :=
  if !optTruthy r.hero_image_url && optTruthy doc.hero_image_url then
    { r with hero_image_url := doc.hero_image_url }
  else r

structure AResult where
  result : Except AErr Recipe
  db : FStore
  evs : List Ev

/-- The fresh-extraction tail of `analyze_video` (lines 206-425): upload
the video, poll readiness, run the structured completion, illustrate,
persist the base, optionally translate and persist.  The `"FAILED"` state
raise of line 223 happens before the `try/finally`, so no
`client.files.delete` is attempted on that path. -/
def analyzeFresh (env : GenEnv) (video_path : Option FileArg)
    (video_url language : String) (db : FStore) : AResult :=
  match video_path with
  | none => { result := .error .noVideoPath, db := db, evs := [] }
  | some (.pair _ _) => { result := .error .uploadTypeError, db := db, evs := [] }
  | some (.path _) =>
    if env.processingOk = false then
      { result := .error .processingFailed, db := db, evs := [.videoUpload] }
    else
      match env.extract with
      | none =>
        { result := .error .generationFailed, db := db,
          evs := [.videoUpload, .videoDelete] }
      | some d =>
        let rid := generate_recipe_id video_url
        let sres := illustrateGo env.stepGen env.uploadO env.timeNow db rid 0 [] d.steps
        let hres := heroPhase env.heroGen env.uploadO env.timeNow db rid sres.images sres.stepsOut
        let base0 := buildRecipe d env.randRating env.randReviews sres.stepsOut hres.hero
        let base1 := { base0 with source_url := some video_url }
        let saved := save_recipe_to_firestore base1 video_url "en" db
        let base : Recipe := { base1 with id := saved.1 }
        if language = "en" then
          { result := .ok base, db := saved.2,
            evs := .videoUpload :: sres.evs ++ hres.evs ++ [.saveCall "en", .videoDelete] }
        else
          let translated := translate_recipe base language env.transResp
          let saved2 := save_recipe_to_firestore translated video_url language saved.2
          { result := .ok { translated with id := saved.1 }, db := saved2.2,
            evs := .videoUpload :: sres.evs ++ hres.evs ++
              [.saveCall "en", .translateCall language, .saveCall language, .videoDelete] }

/-- `analyze_video(video_path, video_url, language)` (lines 159-425). -/
def analyze_video (env : GenEnv) (video_path : Option FileArg)
    (video_url language : String) (db : FStore) : AResult :=
  match get_recipe_from_firestore video_url db with
  | some doc =>
    match lookupA doc.translations language with
    | some payload =>
      { result := .ok (withHeroBackfill (withDocGlobals payload doc video_url) doc),
        db := db, evs := [] }
    | none =>
      match lookupA doc.translations "en" with
      | some basePayload =>
        -- NOTE: this branch (lines 185-204) does not restore the hero
        -- image from the document
        let base := withDocGlobals basePayload doc video_url
        let translated := translate_recipe base language env.transResp
        let saved := save_recipe_to_firestore translated video_url language db
        { result := .ok { translated with id := base.id }, db := saved.2,
          evs := [.translateCall language, .saveCall language] }
      | none => analyzeFresh env video_path video_url language db
  | none => analyzeFresh env video_path video_url language db

/-- `get_cached_recipe(video_url, language)` (lines 22-106 of
`gemini.py`): exact-language hit, else translate from the cached `"en"`
base and persist the translation as a side effect of the lookup. -/
def get_cached_recipe (env : GenEnv) (video_url language : String)
    (db : FStore) : Option Recipe × FStore × List Ev :=
  match get_recipe_from_firestore video_url db with
  | some doc =>
    match lookupA doc.translations language with
    | some payload =>
      (some (withHeroBackfill (withDocGlobals payload doc video_url) doc), db, [])
    | none =>
      match lookupA doc.translations "en" with
      | some basePayload =>
        let base := withHeroBackfill (withDocGlobals basePayload doc video_url) doc
        let translated := translate_recipe base language env.transResp
        let saved := save_recipe_to_firestore translated video_url language db
        (some { translated with id := base.id }, saved.2,
         [.translateCall language, .saveCall language])
      | none => (none, db, [])
  | none => (none, db, [])

/-! ## Orchestrator (`main.py`) -/

structure DownloadEnv where
  result : Except String (String × DownloadMeta)

/-- `download_instagram_video(url)`: on success the file lands on the
local filesystem and the `(filename, metadata)` tuple is returned. -/
def download_instagram_video (denv : DownloadEnv) (files : List String) :
    Except String ((String × DownloadMeta) × List String) :=
  match denv.result with
  | .ok (filename, meta) => .ok ((filename, meta), filename :: files)
  | .error e => .error e

/-- Python truthiness of the `video_path` variable in the `finally`
block (`if video_path`). -/
def faTruthy : FileArg → Bool
  | .path p => p != ""
  | .pair _ _ => true

/-- `os.path.exists` raises `TypeError` when handed a tuple (it is not
among the `OSError`/`ValueError` classes `exists` swallows). -/
def os_path_exists (fa : FileArg) (files : List String) : Except Unit Bool :=
  match fa with
  | .path p => .ok (files.contains p)
  | .pair _ _ => .error ()

def os_remove (fa : FileArg) (files : List String) : Except Unit (List String) :=
  match fa with
  | .path p => .ok (files.erase p)
  | .pair _ _ => .error ()

structure PipeResult where
  db : FStore
  files : List String
  evs : List Ev
  uncaught : Bool   -- an exception escaped the finally block of the task

/-- The `finally` block of `process_video_background`:
`if video_path and os.path.exists(video_path): try: os.remove(...)
except: pass`.  A `TypeError` from `os.path.exists` is not caught by
anything and escapes the background task. -/
def pipelineFinally (video_path : Option FileArg) (db : FStore)
    (files : List String) (evs : List Ev) : PipeResult :=
  match video_path with
  | none => { db := db, files := files, evs := evs, uncaught := false }
  | some fa =>
    if faTruthy fa then
      match os_path_exists fa files with
      | .error _ => { db := db, files := files, evs := evs, uncaught := true }
      | .ok true =>
        match os_remove fa files with
        | .ok files2 => { db := db, files := files2, evs := evs, uncaught := false }
        | .error _ => { db := db, files := files, evs := evs, uncaught := false }
      | .ok false => { db := db, files := files, evs := evs, uncaught := false }
    else { db := db, files := files, evs := evs, uncaught := false }

/-- Modelled from the spec: `send_push_notification` is imported by
`main.py` from `services.firebase_service`, where it does not exist in
the sources.  §6 of the spec describes the Notifier as best-effort,
fire-and-forget `send(token, title, body, data)`; it is modelled as pure
event emission. -/
def send_push_notification (success : Bool) : Ev :=
  if success then .notifySuccess else .notifyFailure

def notifyEvs (fcm_token : Option String) (success : Bool) : List Ev :=
  match fcm_token with
  | some _ => [send_push_notification success]
  | none => []

/-- `process_video_background(url, language, fcm_token)` (lines 22-80 of
`main.py`).  The downloader's `(filename, metadata)` tuple is bound whole
to `video_path` (the source does not unpack it), which is embedded as
`FileArg.pair`. -/
def process_video_background (env : GenEnv) (denv : DownloadEnv)
    (url language : String) (fcm_token : Option String) (db : FStore)
    (files : List String) : PipeResult :=
  let c1 := get_cached_recipe env url language db
  let afterCache : Bool × FStore × List Ev :=
    match c1.1 with
    | some _ => (true, c1.2.1, c1.2.2)
    | none =>
      if language ≠ "en" then
        let c2 := get_cached_recipe env url "en" c1.2.1
        (c2.1.isSome, c2.2.1, c1.2.2 ++ c2.2.2)
      else (false, c1.2.1, c1.2.2)
  let hasCache := afterCache.1
  let db2 := afterCache.2.1
  let evC := afterCache.2.2
  if hasCache then
    let a := analyze_video env none url language db2
    match a.result with
    | .ok _ => pipelineFinally none a.db files (evC ++ a.evs ++ notifyEvs fcm_token true)
    | .error _ => pipelineFinally none a.db files (evC ++ a.evs ++ notifyEvs fcm_token false)
  else
    match download_instagram_video denv files with
    | .error _ =>
      pipelineFinally none db2 files (evC ++ [.downloadCall] ++ notifyEvs fcm_token false)
    | .ok (pair, files2) =>
      let video_path := some (FileArg.pair pair.1 pair.2)
      let a := analyze_video env video_path url language db2
      match a.result with
      | .ok _ =>
        pipelineFinally video_path a.db files2
          (evC ++ [.downloadCall] ++ a.evs ++ notifyEvs fcm_token true)
      | .error _ =>
        pipelineFinally video_path a.db files2
          (evC ++ [.downloadCall] ++ a.evs ++ notifyEvs fcm_token false)

/-- `POST /translate` (lines 120-133 of `main.py`): synchronous lookup
through `get_cached_recipe`, 404 when it yields nothing. -/
def translate_recipe_endpoint (env : GenEnv) (url language : String)
    (db : FStore) : Except Nat Recipe × FStore × List Ev :=
  match get_cached_recipe env url language db with
  | (some r, db2, evs) => (.ok r, db2, evs)
  | (none, db2, evs) => (.error 404, db2, evs)

/-! ## Concrete fixtures for witnesses and counterexamples -/

def rBase : Recipe :=
  { id := some "rid0"
    source_url := some "https://example.com/v"
    title := "Pasta"
    description := "Tasty"
    ingredients := [{ name := "Flour", amount := "2", unit := "cups" }]
    steps := [{ description := "Mix", image_url := some "https://img/0.png" },
              { description := "Bake", image_url := some "https://img/1.png" }]
    hero_image_url := some "https://img/hero.png" }

/-- A parsed translation-backend response that dropped one step. -/
def rOneStep : Recipe :=
  { title := "Pates"
    description := "Bon"
    ingredients := []
    steps := [{ description := "Melanger" }]
    language := "fr" }

/-- A parsed translation-backend response with one extra step. -/
def rThreeStep : Recipe :=
  { title := "Pates"
    description := "Bon"
    ingredients := []
    steps := [{ description := "a" }, { description := "b" }, { description := "c" }]
    language := "fr" }

def envStub : GenEnv :=
  { stepGen := fun _ _ => .raiseOther
    heroGen := fun _ => .raiseOther
    uploadO := fun _ => none
    timeNow := 0
    processingOk := true
    extract := none
    transResp := .raise
    randRating := 4.5
    randReviews := 100
    deleteFails := false }

def urlFix : String := "https://www.instagram.com/reel/ABC123"

def docEn : StoredDoc :=
  { source_url := urlFix
    created_at := 5
    hero_image_url := some "https://img/hero.png"
    metadata := { author_name := "chef", time := "30 min", category := "Dinner" }
    rating := some 4.6
    reviews_count := some 200
    translations := [("en", rBase)] }

def dbEn : FStore := { ready := true, now := 9, docs := [(generate_recipe_id urlFix, docEn)] }

def dbOff : FStore := { ready := false, now := 0, docs := [] }

def denvOk : DownloadEnv := { result := .ok ("temp/v1.mp4", { author_name := "chef" }) }

/-- Backend failing transiently on attempts 0 and 1, succeeding on 2. -/
def gen2fail : Nat → GenResult :=
  fun a => if a < 2 then .raiseTransient else .ok [{ inline_data := some 5 }]

/-- Backend returning a part-less success on attempt 0, an image on 1. -/
def genEmptyThenOk : Nat → GenResult :=
  fun a => if a = 0 then .ok [] else .ok [{ inline_data := some 7 }]

def dFix : ExtractedData := { title := "Pasta", description := "Tasty", steps := ["Mix", "Bake"] }

/-- Environment whose image backend always fails transiently. -/
def envAllT : GenEnv :=
  { envStub with stepGen := fun _ _ => .raiseTransient, extract := some dFix }

/-- Hero backend failing transiently on attempt 0 while an attempt 1
would return an image, with a working upload. -/
def envHeroT : GenEnv :=
  { envStub with
    heroGen := fun a => if a = 0 then .raiseTransient else .ok [{ inline_data := some 9 }]
    uploadO := fun _ => some "https://img/h.png" }

/-- Environment for a successful fresh extraction with a working image
and hero backend. -/
def envFresh : GenEnv :=
  { envStub with
    stepGen := fun _ _ => .ok [{ inline_data := some 11 }]
    heroGen := fun _ => .ok [{ inline_data := some 12 }]
    uploadO := fun _ => some "https://img/x.png"
    extract := some dFix }

/-! ## Association-list lemmas -/

theorem lookupA_setA_self {α : Type} (l : List (String × α)) (k : String) (v : α) :
    lookupA (setA l k v) k = some v := by
  induction l with
  | nil => simp [setA, lookupA]
  | cons hd tl ih =>
    obtain ⟨k0, v0⟩ := hd
    by_cases h : k0 = k
    · simp [setA, lookupA, h]
    · simp [setA, lookupA, h, ih]

theorem lookupA_setA_ne {α : Type} (l : List (String × α)) (k k2 : String) (v : α)
    (h : k2 ≠ k) : lookupA (setA l k v) k2 = lookupA l k2 := by
  induction l with
  | nil =>
    simp only [setA, lookupA]
    rw [if_neg (fun hh => h hh.symm)]
  | cons hd tl ih =>
    obtain ⟨k0, v0⟩ := hd
    by_cases h0 : k0 = k
    · subst h0
      simp only [setA, if_pos rfl, lookupA]
      rw [if_neg (fun hh => h hh.symm), if_neg (fun hh => h hh.symm)]
    · simp only [setA, if_neg h0, lookupA]
      by_cases h2 : k0 = k2
      · rw [if_pos h2, if_pos h2]
      · rw [if_neg h2, if_neg h2, ih]

/-! ## C7 - merge preserves other languages and top-level fields -/

/-- C7: saving `translations[language]` for an existing document merges
that one entry: the saved language maps to the new payload, every other
language entry is untouched, all other top-level fields of the document
(`metadata`, `source_url`, `created_at`, `hero_image_url`, `rating`,
`reviews_count`) are unchanged, and every other document is unchanged. -/
theorem c7_merge_preserves (db : FStore) (url lang : String) (r : Recipe)
    (doc : StoredDoc) (hready : db.ready = true)
    (hdoc : lookupA db.docs (generate_recipe_id url) = some doc) :
    ∃ doc2 : StoredDoc,
      (save_recipe_to_firestore r url lang db).1 = some (generate_recipe_id url) ∧
      lookupA (save_recipe_to_firestore r url lang db).2.docs (generate_recipe_id url)
        = some doc2 ∧
      lookupA doc2.translations lang = some r ∧
      (∀ l, l ≠ lang → lookupA doc2.translations l = lookupA doc.translations l) ∧
      doc2.metadata = doc.metadata ∧
      doc2.source_url = doc.source_url ∧
      doc2.created_at = doc.created_at ∧
      doc2.hero_image_url = doc.hero_image_url ∧
      doc2.rating = doc.rating ∧
      doc2.reviews_count = doc.reviews_count ∧
      (∀ k, k ≠ generate_recipe_id url →
        lookupA (save_recipe_to_firestore r url lang db).2.docs k = lookupA db.docs k) := by
  have hfst : (save_recipe_to_firestore r url lang db).1 = some (generate_recipe_id url) := by
    simp [save_recipe_to_firestore, hready, hdoc]
  have hdocs : (save_recipe_to_firestore r url lang db).2.docs =
      setA db.docs (generate_recipe_id url)
        { doc with translations := setA doc.translations lang r } := by
    simp [save_recipe_to_firestore, hready, hdoc]
  refine ⟨{ doc with translations := setA doc.translations lang r },
    hfst, ?_, ?_, ?_, rfl, rfl, rfl, rfl, rfl, rfl, ?_⟩
  · rw [hdocs]
    exact lookupA_setA_self ..
  · exact lookupA_setA_self ..
  · intro l hl
    exact lookupA_setA_ne _ _ _ _ hl
  · intro k hk
    rw [hdocs]
    exact lookupA_setA_ne _ _ _ _ hk

/-- Witness for C7 at a concrete store: a document holding `"en"` gains a
`"fr"` entry while keeping `"en"` and its metadata. -/
theorem c7_merge_preserves_witness :
    ∃ doc2 : StoredDoc,
      (save_recipe_to_firestore rOneStep urlFix "fr" dbEn).1 = some (generate_recipe_id urlFix) ∧
      lookupA (save_recipe_to_firestore rOneStep urlFix "fr" dbEn).2.docs (generate_recipe_id urlFix)
        = some doc2 ∧
      lookupA doc2.translations "fr" = some rOneStep ∧
      (∀ l, l ≠ "fr" → lookupA doc2.translations l = lookupA docEn.translations l) ∧
      doc2.metadata = docEn.metadata ∧
      doc2.source_url = docEn.source_url ∧
      doc2.created_at = docEn.created_at ∧
      doc2.hero_image_url = docEn.hero_image_url ∧
      doc2.rating = docEn.rating ∧
      doc2.reviews_count = docEn.reviews_count ∧
      (∀ k, k ≠ generate_recipe_id urlFix →
        lookupA (save_recipe_to_firestore rOneStep urlFix "fr" dbEn).2.docs k
          = lookupA dbEn.docs k) := by
  have h := c7_merge_preserves dbEn urlFix "fr" rOneStep docEn rfl (by simp [dbEn, lookupA])
  exact h

/-! ## C6 - translation failure falls back to the original recipe -/

/-- C6: when the remote translation call raises (which also covers an
unparsable response, since `json.loads` raises inside the same `try`), or
the parsed response is a list containing no object-shaped element,
`translate_recipe` returns the original recipe unchanged; the embedding
is a total function, matching the source where every exception inside the
call is caught and converted to this fallback, so translation failure
never raises out of `translate_recipe`. -/
theorem c6_translate_fallback (recipe : Recipe) (target : String) (resp : TransResp)
    (h : resp = .raise ∨ ∃ elems, resp = .jlist elems ∧ ∀ e ∈ elems, e = JsonElem.nonObj) :
    translate_recipe recipe target resp = recipe := by
  rcases h with h | ⟨elems, rfl, hall⟩
  · subst h; rfl
  · cases elems with
    | nil => rfl
    | cons e es =>
      have he := hall e (by simp)
      subst he
      rfl

/-- Witness for C6: a raised call and an object-free list both return the
original recipe. -/
theorem c6_translate_fallback_witness :
    translate_recipe rBase "fr" .raise = rBase ∧
    translate_recipe rBase "fr" (.jlist [.nonObj, .nonObj]) = rBase := by
  constructor
  · exact c6_translate_fallback rBase "fr" .raise (Or.inl rfl)
  · exact c6_translate_fallback rBase "fr" (.jlist [.nonObj, .nonObj])
      (Or.inr ⟨[.nonObj, .nonObj], rfl, by intro e he; simpa using he⟩)

/-! ## C3 - positional re-stitching of step imagery -/

theorem restitch_steps_map (base tr : Recipe) :
    (restitch base tr).steps.map Step.image_url
      = (base.steps.map Step.image_url).take (min tr.steps.length base.steps.length) := by
  simp only [restitch]
  generalize tr.steps = a
  generalize base.steps = b
  induction a generalizing b with
  | nil => simp
  | cons x xs ih =>
    cases b with
    | nil => simp
    | cons y ys => simp [ih, Nat.succ_min_succ]

/-- C3 is false as stated: the re-stitching `zip` of line 149-152
truncates to the shorter list, so a backend response that drops a step
shrinks the translation.  Here the base has 2 steps, each with a
non-empty `image_url`, the backend returns a valid 1-step object, and the
translated recipe has 1 step, not 2. -/
theorem c3_counterexample :
    rBase.steps.length = 2 ∧
    (∀ s ∈ rBase.steps, optTruthy s.image_url = true) ∧
    (translate_recipe rBase "fr" (.jobj (some rOneStep))).steps.length = 1 := by
  decide

/-- C3 amended: `id`, `source_url` and `hero_image_url` always come from
the original recipe, and the translation's step images are positionally
the base's images - but the translation has `min M N` steps where `M` is
the parsed response's step count and `N` the base's (the `zip` truncates),
rather than exactly `N` for every response.  On every rejected response
the original recipe is returned, which trivially preserves all N steps. -/
theorem c3_translation_imagery_amended (base : Recipe) (target : String)
    (resp : TransResp) :
    (translate_recipe base target resp).id = base.id ∧
    (translate_recipe base target resp).source_url = base.source_url ∧
    (translate_recipe base target resp).hero_image_url = base.hero_image_url ∧
    (translate_recipe base target resp).steps.map Step.image_url
      = (base.steps.map Step.image_url).take
          (translate_recipe base target resp).steps.length ∧
    (∀ parsed rest,
      (resp = .jobj (some parsed) ∨ resp = .jlist (.obj (some parsed) :: rest)) →
      (translate_recipe base target resp).steps.length
        = min parsed.steps.length base.steps.length) := by
  have hres : ∀ tr : Recipe,
      (restitch base tr).id = base.id ∧
      (restitch base tr).source_url = base.source_url ∧
      (restitch base tr).hero_image_url = base.hero_image_url ∧
      (restitch base tr).steps.map Step.image_url
        = (base.steps.map Step.image_url).take (restitch base tr).steps.length ∧
      (restitch base tr).steps.length = min tr.steps.length base.steps.length := by
    intro tr
    have hlen : (restitch base tr).steps.length = min tr.steps.length base.steps.length := by
      simp [restitch]
    refine ⟨rfl, rfl, rfl, ?_, hlen⟩
    rw [hlen, restitch_steps_map]
  have hfb : (base.steps.map Step.image_url).take base.steps.length
      = base.steps.map Step.image_url := by
    simp
  cases resp with
  | raise =>
    refine ⟨rfl, rfl, rfl, hfb.symm, ?_⟩
    intro parsed rest h
    rcases h with h | h <;> simp at h
  | jother =>
    refine ⟨rfl, rfl, rfl, hfb.symm, ?_⟩
    intro parsed rest h
    rcases h with h | h <;> simp at h
  | jobj parsed =>
    cases parsed with
    | none =>
      refine ⟨rfl, rfl, rfl, hfb.symm, ?_⟩
      intro parsed2 rest h
      rcases h with h | h <;> simp at h
    | some tr =>
      obtain ⟨h1, h2, h3, h4, h5⟩ := hres tr
      refine ⟨h1, h2, h3, h4, ?_⟩
      intro parsed2 rest h
      rcases h with h | h
      · simp only [TransResp.jobj.injEq, Option.some.injEq] at h
        subst h
        exact h5
      · simp at h
  | jlist elems =>
    match elems with
    | [] =>
      refine ⟨rfl, rfl, rfl, hfb.symm, ?_⟩
      intro parsed2 rest h
      rcases h with h | h <;> simp at h
    | .nonObj :: es =>
      refine ⟨rfl, rfl, rfl, hfb.symm, ?_⟩
      intro parsed2 rest h
      rcases h with h | h <;> simp at h
    | .obj none :: es =>
      refine ⟨rfl, rfl, rfl, hfb.symm, ?_⟩
      intro parsed2 rest h
      rcases h with h | h <;> simp at h
    | .obj (some tr) :: es =>
      obtain ⟨h1, h2, h3, h4, h5⟩ := hres tr
      refine ⟨h1, h2, h3, h4, ?_⟩
      intro parsed2 rest h
      rcases h with h | h
      · simp at h
      · simp only [TransResp.jlist.injEq, List.cons.injEq, JsonElem.obj.injEq,
          Option.some.injEq] at h
        obtain ⟨h, h'⟩ := h
        subst h
        exact h5

/-- Witness for C3's amended statement at a 3-step backend response
against the 2-step base: the result keeps 2 steps and the base's images. -/
theorem c3_translation_imagery_amended_witness :
    (translate_recipe rBase "fr" (.jobj (some rThreeStep))).steps.length = 2 ∧
    (translate_recipe rBase "fr" (.jobj (some rThreeStep))).steps.map Step.image_url
      = (rBase.steps.map Step.image_url).take
          (translate_recipe rBase "fr" (.jobj (some rThreeStep))).steps.length ∧
    (translate_recipe rBase "fr" (.jobj (some rThreeStep))).id = rBase.id := by
  have h := c3_translation_imagery_amended rBase "fr" (.jobj (some rThreeStep))
  refine ⟨?_, h.2.2.2.1, h.1⟩
  have h2 := h.2.2.2.2 rThreeStep [] (Or.inl rfl)
  simpa [rThreeStep, rBase] using h2

/-! ## C2 - bounded retry at the illustration layer -/

theorem stepAttempts_calls_le (gen : Nat → GenResult) (upload : Nat → Option String)
    (i : Nat) : ∀ l : List Nat,
    (stepAttempts gen upload i l).calls.length ≤ l.length := by
  intro l
  induction l with
  | nil => simp [stepAttempts]
  | cons a rest ih =>
    cases hg : gen a with
    | ok parts =>
      cases hf : firstInline parts with
      | some img => simp [stepAttempts, hg, hf]
      | none =>
        simp only [stepAttempts, hg, hf, List.length_cons]
        omega
    | raiseTransient =>
      by_cases hc : a < max_retries - 1
      · simp only [stepAttempts, hg, if_pos hc, List.length_cons]
        omega
      · simp [stepAttempts, hg, if_neg hc]
    | raiseOther => simp [stepAttempts, hg]

theorem stepAttempts_all_transient (gen : Nat → GenResult)
    (upload : Nat → Option String) (i : Nat)
    (h0 : gen 0 = .raiseTransient) (h1 : gen 1 = .raiseTransient)
    (h2 : gen 2 = .raiseTransient) :
    stepAttempts gen upload i (List.range max_retries) =
      { image_url := none, produced := none,
        calls := [.stepGenCall i 0, .stepGenCall i 1, .stepGenCall i 2],
        sleeps := [2, 4] } := by
  have hr : List.range max_retries = [0, 1, 2] := by decide
  rw [hr]
  simp [stepAttempts, h0, h1, h2, max_retries]

theorem illustrateGo_all_transient (stepGen : Nat → Nat → GenResult)
    (uploadO : String → Option String) (timeNow : Nat) (db : FStore) (rid : String)
    (h : ∀ j a, stepGen j a = .raiseTransient) :
    ∀ (descs : List String) (i : Nat) (imgs : List Nat),
      (illustrateGo stepGen uploadO timeNow db rid i imgs descs).stepsOut
        = descs.map (fun d => { description := d, image_url := none }) ∧
      (illustrateGo stepGen uploadO timeNow db rid i imgs descs).images = imgs := by
  intro descs
  induction descs with
  | nil =>
    intro i imgs
    simp [illustrateGo]
  | cons d rest ih =>
    intro i imgs
    have hstep := stepAttempts_all_transient (stepGen i)
      (fun _img => upload_image uploadO db
        ("step_" ++ toString timeNow ++ "_" ++ toString i ++ ".png")
        ("recipes/" ++ rid ++ "/" ++ ("step_" ++ toString timeNow ++ "_" ++ toString i ++ ".png")))
      i (h i 0) (h i 1) (h i 2)
    simp [illustrateGo, hstep, ih]

/-- C2 is false as stated: the loop also re-attempts, without backoff,
when a generation call succeeds but returns no saveable image part - a
retry not triggered by any transient-class failure.  Here the backend
never raises (attempt 0 returns an empty-parts response, attempt 1 an
image), yet two generation calls are made, with no sleep between them. -/
theorem c2_counterexample :
    genEmptyThenOk 0 = .ok [] ∧
    genEmptyThenOk 1 = .ok [{ inline_data := some 7 }] ∧
    (stepAttempts genEmptyThenOk (fun _ => some "u") 0 (List.range max_retries)).calls
      = [.stepGenCall 0 0, .stepGenCall 0 1] ∧
    (stepAttempts genEmptyThenOk (fun _ => some "u") 0 (List.range max_retries)).sleeps
      = [] := by
  decide

/-- C2 amended: at most 3 attempts; a transient failure (429/503) with
attempts remaining sleeps `(attempt+1)*2` (linear backoff) and retries,
and additionally a success carrying no saveable image part is re-attempted
immediately without backoff; two transient failures followed by a success
whose upload succeeds populate the step's `image_url`; three transient
failures leave it absent; a non-transient failure stops immediately; and a
step whose attempts all fail does not abort the run - `analyze_video`
still returns a recipe with that step's `image_url` absent. -/
theorem c2_retry_amended (gen : Nat → GenResult) (upload : Nat → Option String)
    (i : Nat) :
    (stepAttempts gen upload i (List.range max_retries)).calls.length ≤ 3 ∧
    (∀ parts img u, gen 0 = .raiseTransient → gen 1 = .raiseTransient →
      gen 2 = .ok parts → firstInline parts = some img → upload img = some u →
      stepAttempts gen upload i (List.range max_retries) =
        { image_url := some u, produced := some img,
          calls := [.stepGenCall i 0, .stepGenCall i 1, .stepGenCall i 2],
          sleeps := [2, 4] }) ∧
    (gen 0 = .raiseTransient → gen 1 = .raiseTransient → gen 2 = .raiseTransient →
      stepAttempts gen upload i (List.range max_retries) =
        { image_url := none, produced := none,
          calls := [.stepGenCall i 0, .stepGenCall i 1, .stepGenCall i 2],
          sleeps := [2, 4] }) ∧
    (gen 0 = .raiseOther →
      stepAttempts gen upload i (List.range max_retries) =
        { image_url := none, produced := none,
          calls := [.stepGenCall i 0], sleeps := [] }) ∧
    (∀ (env : GenEnv) (p url : String) (d : ExtractedData) (db : FStore),
      env.processingOk = true → env.extract = some d →
      get_recipe_from_firestore url db = none →
      (∀ j a, env.stepGen j a = .raiseTransient) →
      ∃ r : Recipe,
        (analyze_video env (some (.path p)) url "en" db).result = .ok r ∧
        r.steps = d.steps.map (fun ds => { description := ds, image_url := none })) := by
  have hr : List.range max_retries = [0, 1, 2] := by decide
  refine ⟨?_, ?_, ?_, ?_, ?_⟩
  · calc (stepAttempts gen upload i (List.range max_retries)).calls.length
        ≤ (List.range max_retries).length := stepAttempts_calls_le ..
      _ = 3 := by decide
  · intro parts img u h0 h1 h2 hf hu
    rw [hr]
    simp [stepAttempts, h0, h1, h2, hf, hu, max_retries]
  · intro h0 h1 h2
    exact stepAttempts_all_transient gen upload i h0 h1 h2
  · intro h0
    rw [hr]
    simp [stepAttempts, h0]
  · intro env p url d db hok hex hdb hall
    have hil := illustrateGo_all_transient env.stepGen env.uploadO env.timeNow db
      (generate_recipe_id url) hall d.steps 0 []
    simp only [analyze_video, hdb, analyzeFresh, hok]
    simp only [hex]
    refine ⟨_, rfl, ?_⟩
    simp [buildRecipe, hil.1]

/-- Witness for C2's amended statement: the 2-transient-then-success
backend populates the image with the full backoff trace, and an
all-transient environment still yields a recipe with absent step images. -/
theorem c2_retry_amended_witness :
    stepAttempts gen2fail (fun _ => some "u") 0 (List.range max_retries) =
      { image_url := some "u", produced := some 5,
        calls := [.stepGenCall 0 0, .stepGenCall 0 1, .stepGenCall 0 2],
        sleeps := [2, 4] } ∧
    (∃ r : Recipe,
      (analyze_video envAllT (some (.path "v.mp4")) urlFix "en" dbOff).result = .ok r ∧
      r.steps = dFix.steps.map (fun ds => { description := ds, image_url := none })) := by
  have h := c2_retry_amended gen2fail (fun _ => some "u") 0
  refine ⟨h.2.1 [{ inline_data := some 5 }] 5 "u" rfl rfl rfl rfl rfl, ?_⟩
  have h2 := c2_retry_amended (envAllT.stepGen 0) (fun _ => some "u") 0
  exact h2.2.2.2.2 envAllT "v.mp4" urlFix dFix dbOff rfl rfl rfl (fun _ _ => rfl)

/-! ## C5 - hero image generation -/

/-- C5 is false as stated: the hero block (lines 349-396) has no retry
loop at all - a single generation call is made.  Here the hero backend
fails transiently on attempt 0 and would return an uploadable image on
attempt 1, yet the code makes exactly one call and leaves the hero
absent, where the claimed 3-attempt transient-retry policy would have
produced a populated hero URL. -/
theorem c5_counterexample :
    envHeroT.heroGen 0 = .raiseTransient ∧
    envHeroT.heroGen 1 = .ok [{ inline_data := some 9 }] ∧
    envHeroT.uploadO "recipes/rid/hero_0.png" = some "https://img/h.png" ∧
    heroPhase envHeroT.heroGen envHeroT.uploadO envHeroT.timeNow dbOff "rid" [] []
      = { hero := none, evs := [.heroGenCall []] } := by
  decide

/-- C5 amended: exactly one dedicated hero-generation call is made (no
retry even on a transient failure), using the full accumulated image
context; a raised generation failure falls back to the first step's
truthy image; a response with no saveable part, or a failed upload,
leaves the hero absent with no fallback; an absent fallback is a valid
end state; and the hero phase never fails the pipeline - `analyze_video`
still returns a recipe whose hero field is the hero phase outcome. -/
theorem c5_hero_amended (env : GenEnv) (db : FStore) (rid : String)
    (imgs : List Nat) (stepsOut : List Step) :
    (heroPhase env.heroGen env.uploadO env.timeNow db rid imgs stepsOut).evs
      = [.heroGenCall imgs] ∧
    ((env.heroGen 0 = .raiseTransient ∨ env.heroGen 0 = .raiseOther) →
      (heroPhase env.heroGen env.uploadO env.timeNow db rid imgs stepsOut).hero
        = heroFallback stepsOut) ∧
    (∀ parts, env.heroGen 0 = .ok parts → firstInline parts = none →
      (heroPhase env.heroGen env.uploadO env.timeNow db rid imgs stepsOut).hero = none) ∧
    (∀ parts img, env.heroGen 0 = .ok parts → firstInline parts = some img →
      (heroPhase env.heroGen env.uploadO env.timeNow db rid imgs stepsOut).hero =
        upload_image env.uploadO db ("hero_" ++ toString env.timeNow ++ ".png")
          ("recipes/" ++ rid ++ "/" ++ ("hero_" ++ toString env.timeNow ++ ".png"))) ∧
    heroFallback [] = none ∧
    (∀ s rest, optTruthy s.image_url = false → heroFallback (s :: rest) = none) ∧
    (∀ (p url : String) (d : ExtractedData) (db2 : FStore),
      env.processingOk = true → env.extract = some d →
      get_recipe_from_firestore url db2 = none →
      ∃ r : Recipe,
        (analyze_video env (some (.path p)) url "en" db2).result = .ok r ∧
        r.hero_image_url =
          (heroPhase env.heroGen env.uploadO env.timeNow db2 (generate_recipe_id url)
            (illustrateGo env.stepGen env.uploadO env.timeNow db2
              (generate_recipe_id url) 0 [] d.steps).images
            (illustrateGo env.stepGen env.uploadO env.timeNow db2
              (generate_recipe_id url) 0 [] d.steps).stepsOut).hero) := by
  refine ⟨?_, ?_, ?_, ?_, rfl, ?_, ?_⟩
  · cases hg : env.heroGen 0 with
    | ok parts =>
      cases hf : firstInline parts with
      | some img => simp [heroPhase, hg, hf]
      | none => simp [heroPhase, hg, hf]
    | raiseTransient => simp [heroPhase, hg]
    | raiseOther => simp [heroPhase, hg]
  · intro h
    rcases h with h | h <;> simp [heroPhase, h]
  · intro parts hg hf
    simp [heroPhase, hg, hf]
  · intro parts img hg hf
    simp [heroPhase, hg, hf]
  · intro s rest hs
    simp [heroFallback, hs]
  · intro p url d db2 hok hex hdb
    simp only [analyze_video, hdb, analyzeFresh, hok]
    simp only [hex]
    exact ⟨_, rfl, rfl⟩

/-- Witness for C5's amended statement: a raised hero failure falls back
to the first step's image, and a fresh run completes with the hero phase
outcome as the recipe's hero field. -/
theorem c5_hero_amended_witness :
    (heroPhase envStub.heroGen envStub.uploadO envStub.timeNow dbOff "rid" [3]
      [{ description := "Mix", image_url := some "x" }]).evs = [.heroGenCall [3]] ∧
    (heroPhase envStub.heroGen envStub.uploadO envStub.timeNow dbOff "rid" [3]
      [{ description := "Mix", image_url := some "x" }]).hero = some "x" ∧
    (∃ r : Recipe,
      (analyze_video envAllT (some (.path "v.mp4")) urlFix "en" dbOff).result = .ok r ∧
      r.hero_image_url =
        (heroPhase envAllT.heroGen envAllT.uploadO envAllT.timeNow dbOff
          (generate_recipe_id urlFix)
          (illustrateGo envAllT.stepGen envAllT.uploadO envAllT.timeNow dbOff
            (generate_recipe_id urlFix) 0 [] dFix.steps).images
          (illustrateGo envAllT.stepGen envAllT.uploadO envAllT.timeNow dbOff
            (generate_recipe_id urlFix) 0 [] dFix.steps).stepsOut).hero) := by
  have h := c5_hero_amended envStub dbOff "rid" [3]
    [{ description := "Mix", image_url := some "x" }]
  refine ⟨h.1, ?_, ?_⟩
  · have h2 := h.2.1 (Or.inr rfl)
    simpa [heroFallback, optTruthy] using h2
  · have h3 := c5_hero_amended envAllT dbOff "rid" [] []
    exact h3.2.2.2.2.2.2 "v.mp4" urlFix dFix dbOff rfl rfl rfl

/-! ## C8 - release of the uploaded video handle -/

/-- C8 is false as stated: when the backend reports the terminal
`"FAILED"` processing state, the `raise` at line 223 happens before the
`try/finally` of lines 249-425, so `client.files.delete` is never
attempted on that failure path - the uploaded handle is not released. -/
theorem c8_counterexample :
    (analyze_video { envStub with processingOk := false } (some (.path "v.mp4"))
        urlFix "en" dbOff).evs = [.videoUpload] ∧
    (analyze_video { envStub with processingOk := false } (some (.path "v.mp4"))
        urlFix "en" dbOff).result = .error .processingFailed := by
  exact ⟨rfl, rfl⟩

/-- C8 amended: on every path that passes the processing-readiness gate
(so on the success path and on the generation/parse failure path), the
uploaded video handle is released by the `finally` block, and a failure
of that best-effort release does not change the primary outcome; the
handle is however not released on the early path where the backend
reports a terminal `FAILED` processing state. -/
theorem c8_release_amended (env : GenEnv) (p url lang : String) (db : FStore)
    (hok : env.processingOk = true) :
    (Ev.videoUpload ∈ (analyze_video env (some (.path p)) url lang db).evs →
      Ev.videoDelete ∈ (analyze_video env (some (.path p)) url lang db).evs) ∧
    (∀ b, (analyze_video { env with deleteFails := b } (some (.path p)) url lang db).result
        = (analyze_video env (some (.path p)) url lang db).result) := by
  constructor
  · rcases hdb : get_recipe_from_firestore url db with _ | doc
    · simp only [analyze_video, hdb, analyzeFresh, hok]
      rcases hex : env.extract with _ | d
      · simp
      · by_cases hl : lang = "en" <;> simp [hl]
    · rcases h1 : lookupA doc.translations lang with _ | payload
      · rcases h2 : lookupA doc.translations "en" with _ | basePayload
        · simp only [analyze_video, hdb, h1, h2, analyzeFresh, hok]
          rcases hex : env.extract with _ | d
          · simp
          · by_cases hl : lang = "en" <;> simp [hl]
        · simp [analyze_video, hdb, h1, h2]
      · simp [analyze_video, hdb, h1]
  · intro b
    cases env
    rfl

/-- Witness for C8's amended statement: in a fresh run whose generation
call fails, the upload is followed by a delete attempt, and a raising
delete leaves the outcome unchanged. -/
theorem c8_release_amended_witness :
    Ev.videoDelete ∈ (analyze_video { envStub with extract := none }
      (some (.path "v.mp4")) urlFix "en" dbOff).evs ∧
    (analyze_video { { envStub with extract := none } with deleteFails := true }
        (some (.path "v.mp4")) urlFix "en" dbOff).result
      = (analyze_video { envStub with extract := none }
          (some (.path "v.mp4")) urlFix "en" dbOff).result := by
  have h := c8_release_amended { envStub with extract := none } "v.mp4" urlFix "en" dbOff rfl
  exact ⟨h.1 (by decide), h.2 true⟩

/-! ## C4 - base-language fallback avoids download and extraction -/

theorem save_existing_docs (db : FStore) (url lang : String) (tr : Recipe)
    (doc : StoredDoc) (hready : db.ready = true)
    (hdoc : lookupA db.docs (generate_recipe_id url) = some doc) :
    (save_recipe_to_firestore tr url lang db).2.docs
      = setA db.docs (generate_recipe_id url)
          { doc with translations := setA doc.translations lang tr } ∧
    (save_recipe_to_firestore tr url lang db).2.ready = true := by
  simp [save_recipe_to_firestore, hready, hdoc]

theorem get_after_save_existing (db : FStore) (url lang : String) (tr : Recipe)
    (doc : StoredDoc) (hready : db.ready = true)
    (hdoc : lookupA db.docs (generate_recipe_id url) = some doc) :
    get_recipe_from_firestore url (save_recipe_to_firestore tr url lang db).2
      = some { doc with translations := setA doc.translations lang tr } := by
  obtain ⟨h1, h2⟩ := save_existing_docs db url lang tr doc hready hdoc
  simp [get_recipe_from_firestore, h1, h2, lookupA_setA_self]

theorem lookup_updated_doc (doc : StoredDoc) (lang : String) (tr : Recipe) :
    lookupA ({ doc with translations := setA doc.translations lang tr } : StoredDoc).translations lang
      = some tr := by
  simp [lookupA_setA_self]

/-- C4: for a cached document holding `translations["en"]` but not
`translations["fr"]`, a background pipeline run for `"fr"` invokes the
Translator but never the Downloader and never the Extractor (no video
upload, no image generation call). -/
theorem c4_base_fallback (env : GenEnv) (denv : DownloadEnv) (url : String)
    (fcm : Option String) (db : FStore) (files : List String) (doc : StoredDoc)
    (basePayload : Recipe)
    (hready : db.ready = true)
    (hdoc : lookupA db.docs (generate_recipe_id url) = some doc)
    (hfr : lookupA doc.translations "fr" = none)
    (hen : lookupA doc.translations "en" = some basePayload) :
    Ev.translateCall "fr" ∈ (process_video_background env denv url "fr" fcm db files).evs ∧
    Ev.downloadCall ∉ (process_video_background env denv url "fr" fcm db files).evs ∧
    Ev.videoUpload ∉ (process_video_background env denv url "fr" fcm db files).evs ∧
    (∀ i a, Ev.stepGenCall i a ∉ (process_video_background env denv url "fr" fcm db files).evs) ∧
    (∀ ctx, Ev.heroGenCall ctx ∉ (process_video_background env denv url "fr" fcm db files).evs) := by
  have hget : get_recipe_from_firestore url db = some doc := by
    simp [get_recipe_from_firestore, hready, hdoc]
  have hg : get_cached_recipe env url "fr" db =
      (some { translate_recipe (withHeroBackfill (withDocGlobals basePayload doc url) doc)
                "fr" env.transResp
              with id := (withHeroBackfill (withDocGlobals basePayload doc url) doc).id },
       (save_recipe_to_firestore
         (translate_recipe (withHeroBackfill (withDocGlobals basePayload doc url) doc)
           "fr" env.transResp) url "fr" db).2,
       [.translateCall "fr", .saveCall "fr"]) := by
    simp only [get_cached_recipe, hget, hfr, hen]
  have hget2 := get_after_save_existing db url "fr"
    (translate_recipe (withHeroBackfill (withDocGlobals basePayload doc url) doc)
      "fr" env.transResp) doc hready hdoc
  have hfr2 := lookup_updated_doc doc "fr"
    (translate_recipe (withHeroBackfill (withDocGlobals basePayload doc url) doc)
      "fr" env.transResp)
  have haevs : (analyze_video env none url "fr"
      (save_recipe_to_firestore
        (translate_recipe (withHeroBackfill (withDocGlobals basePayload doc url) doc)
          "fr" env.transResp) url "fr" db).2).evs = [] := by
    simp only [analyze_video, hget2, hfr2]
  have hares : ∃ r, (analyze_video env none url "fr"
      (save_recipe_to_firestore
        (translate_recipe (withHeroBackfill (withDocGlobals basePayload doc url) doc)
          "fr" env.transResp) url "fr" db).2).result = .ok r := by
    simp only [analyze_video, hget2, hfr2]
    exact ⟨_, rfl⟩
  obtain ⟨r, hares⟩ := hares
  simp only [process_video_background, hg, hares, haevs]
  cases fcm <;> simp [notifyEvs, pipelineFinally, send_push_notification]

/-- Witness for C4 at a concrete store holding only `"en"`. -/
theorem c4_base_fallback_witness :
    Ev.translateCall "fr"
      ∈ (process_video_background envStub denvOk urlFix "fr" none dbEn []).evs ∧
    Ev.downloadCall ∉ (process_video_background envStub denvOk urlFix "fr" none dbEn []).evs ∧
    Ev.videoUpload ∉ (process_video_background envStub denvOk urlFix "fr" none dbEn []).evs := by
  have h := c4_base_fallback envStub denvOk urlFix none dbEn [] docEn rBase rfl
    (by simp [dbEn, lookupA]) (by simp [docEn, lookupA]) (by simp [docEn, lookupA])
  exact ⟨h.1, h.2.1, h.2.2.1⟩

/-! ## C10 - the cached lookup translates and persists as a side effect -/

/-- C10: when the document holds a base `"en"` entry but not the
requested language, `get_cached_recipe` itself invokes the Translator and
persists `translations[language]` into the store before returning a
recipe, and the synchronous `/translate` endpoint surfaces exactly this
mutated store, so both the endpoint and the orchestrator's cache check
mutate the persisted document as a side effect of a read. -/
theorem c10_read_side_effect (env : GenEnv) (url lang : String) (db : FStore)
    (doc : StoredDoc) (basePayload : Recipe)
    (hready : db.ready = true)
    (hdoc : lookupA db.docs (generate_recipe_id url) = some doc)
    (hmiss : lookupA doc.translations lang = none)
    (hen : lookupA doc.translations "en" = some basePayload) :
    (get_cached_recipe env url lang db).1.isSome = true ∧
    Ev.translateCall lang ∈ (get_cached_recipe env url lang db).2.2 ∧
    Ev.saveCall lang ∈ (get_cached_recipe env url lang db).2.2 ∧
    (∃ doc2 : StoredDoc,
      lookupA (get_cached_recipe env url lang db).2.1.docs (generate_recipe_id url)
        = some doc2 ∧
      (lookupA doc2.translations lang).isSome = true) ∧
    (∃ r : Recipe, translate_recipe_endpoint env url lang db =
      (.ok r, (get_cached_recipe env url lang db).2.1,
        (get_cached_recipe env url lang db).2.2)) := by
  have hget : get_recipe_from_firestore url db = some doc := by
    simp [get_recipe_from_firestore, hready, hdoc]
  have hg : get_cached_recipe env url lang db =
      (some { translate_recipe (withHeroBackfill (withDocGlobals basePayload doc url) doc)
                lang env.transResp
              with id := (withHeroBackfill (withDocGlobals basePayload doc url) doc).id },
       (save_recipe_to_firestore
         (translate_recipe (withHeroBackfill (withDocGlobals basePayload doc url) doc)
           lang env.transResp) url lang db).2,
       [.translateCall lang, .saveCall lang]) := by
    simp only [get_cached_recipe, hget, hmiss, hen]
  have hdocs2 := save_existing_docs db url lang
    (translate_recipe (withHeroBackfill (withDocGlobals basePayload doc url) doc)
      lang env.transResp) doc hready hdoc
  refine ⟨?_, ?_, ?_, ?_, ?_⟩
  · rw [hg]
    rfl
  · rw [hg]
    simp
  · rw [hg]
    simp
  · refine ⟨{ doc with translations := setA doc.translations lang (translate_recipe (withHeroBackfill (withDocGlobals basePayload doc url) doc) lang env.transResp) }, ?_, ?_⟩
    · rw [hg]
      simp only []
      rw [hdocs2.1]
      exact lookupA_setA_self ..
    · exact congrArg Option.isSome (lookup_updated_doc doc lang
        (translate_recipe (withHeroBackfill (withDocGlobals basePayload doc url) doc)
          lang env.transResp))
  · simp only [translate_recipe_endpoint, hg]
    exact ⟨_, rfl⟩

/-- Witness for C10 at a concrete store holding only `"en"` and a
request for `"fr"`. -/
theorem c10_read_side_effect_witness :
    (get_cached_recipe envStub urlFix "fr" dbEn).1.isSome = true ∧
    Ev.translateCall "fr" ∈ (get_cached_recipe envStub urlFix "fr" dbEn).2.2 ∧
    (∃ doc2 : StoredDoc,
      lookupA (get_cached_recipe envStub urlFix "fr" dbEn).2.1.docs
        (generate_recipe_id urlFix) = some doc2 ∧
      (lookupA doc2.translations "fr").isSome = true) ∧
    (∃ r : Recipe, translate_recipe_endpoint envStub urlFix "fr" dbEn =
      (.ok r, (get_cached_recipe envStub urlFix "fr" dbEn).2.1,
        (get_cached_recipe envStub urlFix "fr" dbEn).2.2)) := by
  have h := c10_read_side_effect envStub urlFix "fr" dbEn docEn rBase rfl
    (by simp [dbEn, lookupA]) (by simp [docEn, lookupA]) (by simp [docEn, lookupA])
  exact ⟨h.1, h.2.1, h.2.2.2.1, h.2.2.2.2⟩

/-! ## C1 - guaranteed cleanup of the downloaded video -/

/-- C1 exhibits a code bug: `download_instagram_video` returns a
`(filename, metadata)` tuple (its own signature and docstring say so),
but `main.py` line 38 binds the whole tuple to `video_path` without
unpacking.  In a run where the download succeeds, the `finally` block
evaluates `os.path.exists(video_path)` on a tuple, which raises
`TypeError` (uncaught, escaping the background task), and `os.remove` is
never reached: the downloaded temporary video file survives the run, on
a run that also ends in a failure notification because
`client.files.upload` is handed the same tuple.  So the spec's
guaranteed-cleanup contract is violated by the code. -/
theorem c1_cleanup_bug :
    (process_video_background envStub denvOk "https://www.instagram.com/reel/ABC"
      "en" (some "tok") dbOff []).files = ["temp/v1.mp4"] ∧
    (process_video_background envStub denvOk "https://www.instagram.com/reel/ABC"
      "en" (some "tok") dbOff []).uncaught = true ∧
    Ev.downloadCall ∈ (process_video_background envStub denvOk
      "https://www.instagram.com/reel/ABC" "en" (some "tok") dbOff []).evs ∧
    Ev.notifyFailure ∈ (process_video_background envStub denvOk
      "https://www.instagram.com/reel/ABC" "en" (some "tok") dbOff []).evs := by
  decide

/-! ## C9 - key derivation lemmas -/

theorem dropLit_eq (lit : List Char) : ∀ s r : List Char,
    dropLit lit s = some r → s = lit ++ r := by
  induction lit with
  | nil =>
    intro s r h
    simp only [dropLit, Option.some.injEq] at h
    simp [h]
  | cons l ls ih =>
    intro s r h
    cases s with
    | nil => simp [dropLit] at h
    | cons c cs =>
      simp only [dropLit] at h
      by_cases hc : c = l
      · rw [if_pos hc] at h
        have := ih cs r h
        simp [hc, this]
      · rw [if_neg hc] at h
        exact absurd h (by simp)

theorem dropLit_self (lit : List Char) : ∀ r : List Char,
    dropLit lit (lit ++ r) = some r := by
  induction lit with
  | nil => intro r; rfl
  | cons l ls ih =>
    intro r
    simp only [List.cons_append, dropLit, if_pos rfl]
    exact ih r

theorem dropLit_extend_none (lit : List Char) (m : Char) (t : List Char)
    (hm : m ∉ lit) : ∀ v : List Char,
    dropLit lit v = none → dropLit lit (v ++ m :: t) = none := by
  induction lit with
  | nil => intro v h; simp [dropLit] at h
  | cons l ls ih =>
    intro v h
    cases v with
    | nil =>
      simp only [List.nil_append, dropLit]
      rw [if_neg (fun hc : m = l => hm (by simp [hc]))]
    | cons c cs =>
      simp only [dropLit] at h ⊢
      by_cases hc : c = l
      · rw [if_pos hc] at h ⊢
        exact ih (fun hmem => hm (by simp [hmem])) cs h
      · rw [if_neg hc]

theorem dropLit_none_of_missing (lit s : List Char) (c : Char)
    (hc : c ∈ lit) (hs : c ∉ s) : dropLit lit s = none := by
  cases h : dropLit lit s with
  | none => rfl
  | some r =>
    have := dropLit_eq lit s r h
    exact absurd (this ▸ List.mem_append_left r hc) hs

theorem takeWhile_append_stop (p : Char → Bool) (m : Char) (t : List Char)
    (hm : p m = false) : ∀ l : List Char,
    (l ++ m :: t).takeWhile p = l.takeWhile p := by
  intro l
  induction l with
  | nil => simp [List.takeWhile_cons, hm]
  | cons a as ih =>
    simp only [List.cons_append, List.takeWhile_cons]
    cases p a <;> simp [ih]

theorem takeGroup_append_stop (l : List Char) (m : Char) (t : List Char)
    (hm : isStopChar m = true) : takeGroup (l ++ m :: t) = takeGroup l := by
  unfold takeGroup
  exact takeWhile_append_stop _ m t (by simp [hm]) l

theorem tryCodeP_append (v : List Char) (m : Char) (t : List Char)
    (hm : m ∉ litP) (hstop : isStopChar m = true) :
    tryCodeP (v ++ m :: t) = tryCodeP v := by
  unfold tryCodeP
  cases hd : dropLit litP v with
  | some rest =>
    have hv : v = litP ++ rest := dropLit_eq _ _ _ hd
    have hd2 : dropLit litP (v ++ m :: t) = some (rest ++ m :: t) := by
      rw [hv, List.append_assoc]
      exact dropLit_self ..
    rw [hd2]
    simp [takeGroup_append_stop rest m t hstop]
  | none =>
    rw [dropLit_extend_none litP m t hm v hd]

theorem tryCodeAt_append (v : List Char) (m : Char) (t : List Char)
    (hm1 : m ∉ litReel) (hm2 : m ∉ litP) (hstop : isStopChar m = true) :
    tryCodeAt (v ++ m :: t) = tryCodeAt v := by
  unfold tryCodeAt
  cases hd : dropLit litReel v with
  | some rest =>
    have hv : v = litReel ++ rest := dropLit_eq _ _ _ hd
    have hd2 : dropLit litReel (v ++ m :: t) = some (rest ++ m :: t) := by
      rw [hv, List.append_assoc]
      exact dropLit_self ..
    rw [hd2]
    simp only [takeGroup_append_stop rest m t hstop]
    by_cases hg : takeGroup rest = []
    · simp only [if_pos hg]
      exact tryCodeP_append v m t hm2 hstop
    · simp only [if_neg hg]
  | none =>
    rw [dropLit_extend_none litReel m t hm1 v hd]
    exact tryCodeP_append v m t hm2 hstop

theorem scanCode_none_of_no_slash : ∀ s : List Char,
    '/' ∉ s → scanCode s = none := by
  intro s
  induction s with
  | nil => intro _; rfl
  | cons c cs ih =>
    intro h
    have h1 : dropLit litReel (c :: cs) = none :=
      dropLit_none_of_missing _ _ '/' (by decide) h
    have h2 : dropLit litP (c :: cs) = none :=
      dropLit_none_of_missing _ _ '/' (by decide) h
    have hcs : '/' ∉ cs := fun hm => h (List.mem_cons_of_mem c hm)
    simp [scanCode, tryCodeAt, tryCodeP, h1, h2, ih hcs]

theorem scanCode_append (u : List Char) (m : Char) (t : List Char)
    (hm : m = '?' ∨ m = '#') (ht : '/' ∉ t) :
    scanCode (u ++ m :: t) = scanCode u := by
  have hm1 : m ∉ litReel := by rcases hm with rfl | rfl <;> decide
  have hm2 : m ∉ litP := by rcases hm with rfl | rfl <;> decide
  have hstop : isStopChar m = true := by rcases hm with rfl | rfl <;> decide
  have hms : m ≠ '/' := by rcases hm with rfl | rfl <;> decide
  induction u with
  | nil =>
    simp only [List.nil_append]
    have : '/' ∉ m :: t := by
      intro hmem
      rcases List.mem_cons.mp hmem with hh | hh
      · exact hms hh.symm
      · exact ht hh
    rw [scanCode_none_of_no_slash _ this]
    rfl
  | cons c cs ih =>
    have harr : (c :: cs) ++ m :: t = c :: (cs ++ m :: t) := rfl
    rw [harr]
    simp only [scanCode]
    rw [show c :: (cs ++ m :: t) = (c :: cs) ++ m :: t from rfl,
      tryCodeAt_append (c :: cs) m t hm1 hm2 hstop]
    cases tryCodeAt (c :: cs) with
    | some g => rfl
    | none => exact ih

theorem takeWhile_all_eq (p : Char → Bool) : ∀ u : List Char,
    u.all p = true → u.takeWhile p = u := by
  intro u
  induction u with
  | nil => intro _; rfl
  | cons a as ih =>
    intro h
    simp only [List.all_cons, Bool.and_eq_true] at h
    simp [List.takeWhile_cons, h.1, ih h.2]

theorem takeWhile_append_split (p : Char → Bool) : ∀ u v : List Char,
    (u ++ v).takeWhile p
      = u.takeWhile p ++ (if u.all p then v.takeWhile p else []) := by
  intro u v
  induction u with
  | nil => simp
  | cons a as ih =>
    simp only [List.cons_append, List.takeWhile_cons, List.all_cons]
    by_cases ha : p a = true
    · simp [ha, ih]
    · have ha2 : p a = false := by revert ha; cases p a <;> simp
      simp [ha2]

theorem stripQF_append_q (u t : List Char) : stripQF (u ++ '?' :: t) = stripQF u := by
  unfold stripQF
  rw [takeWhile_append_stop _ '?' t (by decide) u]

theorem stripQF_append_h (u t : List Char) : stripQF (u ++ '#' :: t) = stripQF u := by
  unfold stripQF
  rw [takeWhile_append_split]
  by_cases hall : u.all (fun c => c != '?')
  · rw [if_pos hall, takeWhile_all_eq _ u hall]
    have hh : ('#' :: t).takeWhile (fun c => c != '?') = '#' :: t.takeWhile (fun c => c != '?') := by
      simp [List.takeWhile_cons]
    rw [hh, takeWhile_append_stop _ '#' _ (by decide) u]
  · rw [if_neg hall, List.append_nil]

theorem uniqueKey_append (u : List Char) (m : Char) (t : List Char)
    (hm : m = '?' ∨ m = '#') (ht : '/' ∉ t) :
    uniqueKey (u ++ m :: t) = uniqueKey u := by
  unfold uniqueKey
  rw [scanCode_append u m t hm ht]
  cases scanCode u with
  | some g => rfl
  | none =>
    simp only []
    rcases hm with rfl | rfl
    · exact stripQF_append_q u t
    · exact stripQF_append_h u t

theorem leBytes_length (w : Nat) : ∀ n : Nat, (leBytes w n).length = w := by
  induction w with
  | zero => intro n; rfl
  | succ k ih => intro n; simp [leBytes, ih]

theorem md5Bytes_length (msg : List Nat) : (md5Bytes msg).length = 16 := by
  unfold md5Bytes
  rcases (chunks64 (md5Pad msg)).foldl md5Block
    (1732584193, 4023233417, 2562383102, 271733878) with ⟨a, b, c, d⟩
  simp [leBytes_length]

theorem flatten_map_byteToHex_length (L : List Nat) :
    ((L.map byteToHex).flatten).length = 2 * L.length := by
  induction L with
  | nil => rfl
  | cons b bs ih =>
    simp only [List.map_cons, List.flatten_cons, List.length_append, ih,
      byteToHex, List.length_cons, List.length_nil]
    omega

theorem md5HexChars_length (msg : List Nat) : (md5HexChars msg).length = 32 := by
  unfold md5HexChars
  rw [flatten_map_byteToHex_length, md5Bytes_length]

theorem getD_mem_of_lt {α : Type} : ∀ (l : List α) (n : Nat) (d : α),
    n < l.length → l.getD n d ∈ l := by
  intro l
  induction l with
  | nil => intro n d h; simp at h
  | cons a as ih =>
    intro n d h
    cases n with
    | zero => simp [List.getD]
    | succ k =>
      have hk : k < as.length := by simpa using h
      simp only [List.getD_cons_succ]
      exact List.mem_cons_of_mem a (ih k d hk)

theorem hexDigitChar_mem (n : Nat) : hexDigitChar n ∈ hexChars := by
  unfold hexDigitChar
  have h : n % 16 < hexChars.length := by
    have h16 : hexChars.length = 16 := by decide
    rw [h16]
    exact Nat.mod_lt _ (by norm_num)
  exact getD_mem_of_lt hexChars (n % 16) '0' h

theorem mem_md5HexChars (msg : List Nat) (c : Char)
    (h : c ∈ md5HexChars msg) : c ∈ hexChars := by
  unfold md5HexChars at h
  rw [List.mem_flatten] at h
  obtain ⟨l, hl, hc⟩ := h
  rw [List.mem_map] at hl
  obtain ⟨b, _, rfl⟩ := hl
  simp only [byteToHex, List.mem_cons, List.not_mem_nil, or_false] at hc
  rcases hc with rfl | rfl
  · exact hexDigitChar_mem _
  · exact hexDigitChar_mem _

/-- C9: key derivation is a pure function (it is a function of the URL
alone); appending a tracking-parameter suffix `?t` or a fragment `#t`
(whose body contains no `/`, so it cannot contain a fresh
`instagram.com/reel/` or `/p/` occurrence) never changes the derived key;
and the key is always a fixed-length (32) string of lowercase hex
characters - `hashlib.md5(...).hexdigest()` of the canonical unique key. -/
theorem c9_key_derivation (u : String) (t : List Char) (ht : '/' ∉ t) :
    generate_recipe_id ⟨u.data ++ '?' :: t⟩ = generate_recipe_id u ∧
    generate_recipe_id ⟨u.data ++ '#' :: t⟩ = generate_recipe_id u ∧
    (generate_recipe_id u).length = 32 ∧
    ∀ c ∈ (generate_recipe_id u).data, c ∈ hexChars := by
  refine ⟨?_, ?_, ?_, ?_⟩
  · unfold generate_recipe_id
    rw [show (⟨u.data ++ '?' :: t⟩ : String).data = u.data ++ '?' :: t from rfl,
      uniqueKey_append u.data '?' t (Or.inl rfl) ht]
  · unfold generate_recipe_id
    rw [show (⟨u.data ++ '#' :: t⟩ : String).data = u.data ++ '#' :: t from rfl,
      uniqueKey_append u.data '#' t (Or.inr rfl) ht]
  · exact md5HexChars_length _
  · intro c hc
    exact mem_md5HexChars _ c hc

/-- Witness for C9 at a concrete Instagram reel URL and the spec's
`?utm=x` tracking suffix. -/
theorem c9_key_derivation_witness :
    ('/' ∉ "utm=x".data) ∧
    generate_recipe_id ⟨"https://www.instagram.com/reel/ABC123".data ++ '?' :: "utm=x".data⟩
      = generate_recipe_id "https://www.instagram.com/reel/ABC123" ∧
    (generate_recipe_id "https://www.instagram.com/reel/ABC123").length = 32 := by
  have h := c9_key_derivation "https://www.instagram.com/reel/ABC123" "utm=x".data (by decide)
  exact ⟨by decide, h.1, h.2.2.1⟩

end Instept
